import Mathlib

/-!
Shallow embedding of `aucommon.auprobe` (audio prober): track scoring,
protocol enumeration and racing, analysis-graph module indexing, anomaly
flags, and output directive composition, together with theorems about
these definitions.

Numbers that are Python floats in the source are modelled as rationals;
Python dicts keyed by track index are modelled as lists of records in
insertion order.
-/

namespace AuProbe

/-- Sentinel for missing numeric metadata (`NONEXIST` in the source). -/
def NONEXIST : Int := -1

/-- Channel key of the original (full) signal (`CHANNEL_ORI`). -/
def CHANNEL_ORI : Int := -1

/-- Channel key of the merged `0.5*c0+0.5*c1` signal (`CHANNEL_MERGED`). -/
def CHANNEL_MERGED : Int := -2

/-- Penalty recorded for a failed probing repetition (`TIME_PUNISHMENT`). -/
def TIME_PUNISHMENT : ℚ := 100

/-- Lower loudness threshold (`LOUDNESS_MIN`). -/
def LOUDNESS_MIN : ℚ := -16

/-- Upper loudness threshold (`LOUDNESS_MAX`). -/
def LOUDNESS_MAX : ℚ := -12

/-- Loudness normalization target (`LOUDNESS_TAR`). -/
def LOUDNESS_TAR : ℚ := -14

/-- Codec weight table `WEIGHT_OF_CODEC`, read through
`WEIGHT_OF_CODEC.get(track['codec'], WEIGHT_OF_CODEC['default'])`. -/
def WEIGHT_OF_CODEC (codec : String) : ℚ :=
  if codec = "aac" then 6/5 else if codec = "vorbis" then 6/5 else 1

/-- One audio track record as parsed by `_get_audio_tracks`. -/
structure Track where
  codec : String
  profile : String
  bit_rate : Int
  sample_rate : Int
  channels : Int
  duration : ℚ
  format_name : String
  index : Nat
deriving DecidableEq

/-- Python `max(iterable, key=f)` seeded with a first element: keeps the
earliest element whose key is maximal (a later element replaces the
current one only on a strictly greater key). -/
def pyMaxBy {α : Type} (f : α → ℚ) (a : α) : List α → α
  | [] => a
  | x :: xs => pyMaxBy f (if f x > f a then x else a) xs

/-- Python `min(iterable, key=f)` seeded with a first element: keeps the
earliest element whose key is minimal. -/
def pyMinBy {α : Type} (f : α → ℚ) (a : α) : List α → α
  | [] => a
  | x :: xs => pyMinBy f (if f x < f a then x else a) xs

/-- The `max_duration` loop of `_get_best_track` (accumulator starts at -1). -/
def maxDuration (tracks : List Track) : ℚ :=
  tracks.foldl (fun acc t => if t.duration > acc then t.duration else acc) (-1)

/-- The inner `value` function of `_get_best_track`. -/
def value (max_duration : ℚ) (track : Track) : ℚ :=
  if max_duration - track.duration < 1 then -1
  else (track.bit_rate : ℚ) * WEIGHT_OF_CODEC track.codec

/-- The `_get_best_track` method applied to the track map's values in insertion
order: `max(self.tracks.values(), key=lambda x: value(x))`, with the
early `return` (`None`) on an empty track map. -/
def get_best_track (tracks : List Track) : Option Track :=
  match tracks with
  | [] => none
  | t :: ts => some (pyMaxBy (value (maxDuration (t :: ts))) t ts)

/-- A long aac track: 10 s, 128000 bps. -/
def trackA : Track :=
  { codec := "aac", profile := "LC", bit_rate := 128000, sample_rate := 44100,
    channels := 2, duration := 10, format_name := "mov", index := 0 }

/-- A materially shorter, lower-bitrate track: 5 s, 64000 bps. -/
def trackB : Track :=
  { codec := "mp3", profile := "", bit_rate := 64000, sample_rate := 44100,
    channels := 2, duration := 5, format_name := "mov", index := 1 }

/-- Evaluation of the codec weight table at `aac`. -/
theorem weight_aac : WEIGHT_OF_CODEC "aac" = 6/5 := by simp [WEIGHT_OF_CODEC]

/-- Evaluation of the codec weight table at `mp3` (default weight). -/
theorem weight_mp3 : WEIGHT_OF_CODEC "mp3" = 1 := by simp [WEIGHT_OF_CODEC]

/-- C1: the claim says the score is -1 exactly for tracks whose duration is
at least 1 s below the longest (here `trackB`, 5 s vs 10 s), every other
track scoring `bit_rate * codec_weight`, so `trackA` (128000 bps aac, full
length) must win. The code's duration test is inverted
(`max_duration - duration < 1` returns -1): at this input the full-length
`trackA` scores -1, the truncated `trackB` scores 64000, and `trackB` is
selected, contradicting the claim, the docstring of `_get_best_track`, and
the comment on the -1 branch. -/
theorem c1_duration_filter_inverted :
    maxDuration [trackA, trackB] = 10 ∧
    maxDuration [trackA, trackB] - trackB.duration ≥ 1 ∧
    value (maxDuration [trackA, trackB]) trackB = 64000 ∧
    value (maxDuration [trackA, trackB]) trackA = -1 ∧
    get_best_track [trackA, trackB] = some trackB := by
  refine ⟨?_, ?_, ?_, ?_, ?_⟩
  · norm_num [maxDuration, trackA, trackB]
  · norm_num [maxDuration, trackA, trackB]
  · norm_num [maxDuration, value, trackA, trackB, weight_mp3]
  · norm_num [maxDuration, value, trackA, trackB]
  · norm_num [get_best_track, pyMaxBy, maxDuration, value, trackA, trackB,
      weight_aac, weight_mp3]

/-- Per-channel volume statistics kept in the `self._volume` map. -/
structure VolumeInfo where
  volume_mean : ℚ
  volume_max : ℚ
deriving DecidableEq

/-- The `is_ll` property of `AudioProber`: channel 1 mean volume at least
10 dB below channel 0 mean volume, `False` for non-2-channel tracks. -/
def is_ll (channels : Int) (volume : Int → VolumeInfo) : Bool :=
  if channels != 2 then false
  else if (volume 1).volume_mean + 10 ≤ (volume 0).volume_mean then true
  else false

/-- The `is_rr` property of `AudioProber`: channel 0 mean volume at least
10 dB below channel 1 mean volume, `False` for non-2-channel tracks. -/
def is_rr (channels : Int) (volume : Int → VolumeInfo) : Bool :=
  if channels != 2 then false
  else if (volume 0).volume_mean + 10 ≤ (volume 1).volume_mean then true
  else false

/-- The `is_inverted` property of `AudioProber`: merged-signal mean volume
at least 10 dB below the original mean volume, `False` for non-2-channel
tracks and whenever `is_ll` or `is_rr` holds. -/
def is_inverted (channels : Int) (volume : Int → VolumeInfo) : Bool :=
  if channels != 2 then false
  else if is_ll channels volume || is_rr channels volume then false
  else if (volume CHANNEL_MERGED).volume_mean + 10 ≤
      (volume CHANNEL_ORI).volume_mean then true
  else false

/-- The `volume_adjust` value computed inside `output_options`:
`None` unless the loudness leaves the [-16, -12] corridor. -/
def volume_adjust (loudness volume_max : ℚ) : Option ℚ :=
  if loudness > LOUDNESS_MAX then some (LOUDNESS_TAR - loudness)
  else if loudness < LOUDNESS_MIN then
    some (min (LOUDNESS_TAR - loudness) (0 - volume_max))
  else none

/-- The `volume_adjust` value combined with the Python truthiness guard
`if volume_adjust:` in `output_options`: the gain value actually appended
as an `-af volume=...` filter, `none` when nothing is appended (which
happens both for `None` and for a computed adjustment of exactly `0.0`). -/
def emittedGain (loudness volume_max : ℚ) : Option ℚ :=
  (volume_adjust loudness volume_max).bind
    (fun v => if v = 0 then none else some v)

/-- Structured view of the options appended by `output_options`: one
`-map_channel 0.index.c -map_channel 0.index.c` pair, or one
`-af volume=...dB` gain filter. -/
inductive Directive
  | map_channel (index : Nat) (c : Nat)
  | af_volume (v : ℚ)
deriving DecidableEq

/-- The gain filter options appended for an emitted gain value. -/
def gain_directives : Option ℚ → List Directive
  | some v => [Directive.af_volume v]
  | none => []

/-- The `channel_selected` variable of `output_options`: channel 0 when
inverted, left-only or not stereo; channel 1 when right-only; otherwise
the original signal (`CHANNEL_ORI`). -/
def channel_selected (channels : Int) (volume : Int → VolumeInfo) : Int :=
  if is_inverted channels volume || is_ll channels volume || channels != 2 then 0
  else if is_rr channels volume then 1
  else CHANNEL_ORI

/-- The `-map_channel` options appended by the remap branch of
`output_options` (same branch structure as `channel_selected`). -/
def remap_directives (index : Nat) (channels : Int)
    (volume : Int → VolumeInfo) : List Directive :=
  if is_inverted channels volume || is_ll channels volume || channels != 2 then
    [Directive.map_channel index 0]
  else if is_rr channels volume then [Directive.map_channel index 1]
  else []

/-- The `output_options` property of `AudioProber`: the remap options
followed by the gain filter computed from the selected variant's loudness
and maximum volume. -/
def output_directives (index : Nat) (channels : Int)
    (volume : Int → VolumeInfo) (loudness : Int → ℚ) : List Directive :=
  remap_directives index channels volume ++
    gain_directives (emittedGain (loudness (channel_selected channels volume))
      ((volume (channel_selected channels volume)).volume_max))

/-- C2 counterexample: with measured loudness -20 LUFS (below -16) and
volume_max 0 dB, the claim prescribes the gain directive
min(-14 - (-20), -0) = 0, yet the code's `if volume_adjust:` truthiness
guard drops a computed adjustment of exactly 0.0, so no gain option is
emitted at all. -/
theorem c2_counterexample_zero_boost :
    (-20 : ℚ) < LOUDNESS_MIN ∧
    volume_adjust (-20) 0 = some (min (LOUDNESS_TAR - (-20)) (0 - 0)) ∧
    min (LOUDNESS_TAR - (-20) : ℚ) (0 - 0) = 0 ∧
    emittedGain (-20) 0 = none := by
  refine ⟨by norm_num [LOUDNESS_MIN], ?_, ?_, ?_⟩
  · norm_num [volume_adjust, LOUDNESS_MAX, LOUDNESS_MIN]
  · norm_num [LOUDNESS_TAR]
  · norm_num [emittedGain, volume_adjust, Option.bind,
      LOUDNESS_MAX, LOUDNESS_MIN, LOUDNESS_TAR]

/-- C2 (amended): for the selected variant, if loudness > -12 LUFS the
emitted gain is exactly -14 - loudness; if loudness < -16 LUFS the emitted
gain is min(-14 - loudness, -volume_max) when that value is nonzero, and
no gain option is emitted when it is exactly zero; if -16 ≤ loudness ≤ -12
(including loudness exactly -12) no gain option is emitted. -/
theorem c2_gain_directive (loudness volume_max : ℚ) :
    (loudness > LOUDNESS_MAX →
      emittedGain loudness volume_max = some (LOUDNESS_TAR - loudness)) ∧
    (loudness < LOUDNESS_MIN →
      (min (LOUDNESS_TAR - loudness) (0 - volume_max) ≠ 0 →
        emittedGain loudness volume_max =
          some (min (LOUDNESS_TAR - loudness) (0 - volume_max))) ∧
      (min (LOUDNESS_TAR - loudness) (0 - volume_max) = 0 →
        emittedGain loudness volume_max = none)) ∧
    (LOUDNESS_MIN ≤ loudness → loudness ≤ LOUDNESS_MAX →
      emittedGain loudness volume_max = none) := by
  unfold emittedGain volume_adjust LOUDNESS_MIN LOUDNESS_MAX LOUDNESS_TAR
  refine ⟨?_, ?_, ?_⟩
  · intro h
    rw [if_pos h]
    simp only [Option.bind]
    rw [if_neg (by linarith)]
  · intro h
    rw [if_neg (by linarith), if_pos h]
    simp only [Option.bind]
    constructor
    · intro hne
      rw [if_neg hne]
    · intro he
      rw [if_pos he]
  · intro h1 h2
    rw [if_neg (by linarith), if_neg (by linarith)]
    simp only [Option.bind]

/-- C2 witness: at loudness -10 LUFS (above -12) and volume_max 0 the
attenuation branch fires with gain -14 - (-10) = -4. -/
theorem c2_gain_directive_witness :
    emittedGain (-10) 0 = some (LOUDNESS_TAR - (-10)) :=
  (c2_gain_directive (-10) 0).1 (by norm_num [LOUDNESS_MAX])

/-- C4: the `left_only` flag (`is_ll`) and the `right_only` flag
(`is_rr`) are never both true: both require the opposite channel's mean
volume to sit at least 10 dB lower, which is contradictory. -/
theorem c4_ll_rr_mutually_exclusive (channels : Int)
    (volume : Int → VolumeInfo)
    (h : is_ll channels volume = true) : is_rr channels volume = false := by
  unfold is_ll at h
  unfold is_rr
  split_ifs at h ⊢ with h1 h2 h3 <;>
    first
      | rfl
      | linarith

/-- Concrete stereo volume map with channel 0 at 0 dB mean and channel 1
at -20 dB mean. -/
def volC4 : Int → VolumeInfo := fun c => if c = 0 then ⟨0, 0⟩ else ⟨-20, -5⟩

/-- C4 witness: at the concrete stereo volume map `volC4` the `is_ll`
hypothesis holds and `is_rr` is false. -/
theorem c4_witness : is_rr 2 volC4 = false :=
  c4_ll_rr_mutually_exclusive 2 volC4 (by norm_num [is_ll, volC4])

/-- C7: channel remap selection and the variant feeding the gain decision:
if `is_inverted` or `is_ll` holds or the track is not 2-channel, the remap
selects channel 0; otherwise if `is_rr` holds it selects channel 1;
otherwise no remap option is emitted and the Original variant is kept; in
every case the gain filter is computed from the selected variant's
loudness and volume_max. -/
theorem c7_remap_selection (index : Nat) (channels : Int)
    (volume : Int → VolumeInfo) (loudness : Int → ℚ) :
    ((is_inverted channels volume || is_ll channels volume ||
        channels != 2) = true →
      channel_selected channels volume = 0 ∧
      output_directives index channels volume loudness =
        Directive.map_channel index 0 ::
          gain_directives (emittedGain (loudness 0) ((volume 0).volume_max))) ∧
    (is_inverted channels volume = false → is_ll channels volume = false →
      channels = 2 → is_rr channels volume = true →
      channel_selected channels volume = 1 ∧
      output_directives index channels volume loudness =
        Directive.map_channel index 1 ::
          gain_directives (emittedGain (loudness 1) ((volume 1).volume_max))) ∧
    (is_inverted channels volume = false → is_ll channels volume = false →
      is_rr channels volume = false → channels = 2 →
      channel_selected channels volume = CHANNEL_ORI ∧
      output_directives index channels volume loudness =
        gain_directives (emittedGain (loudness CHANNEL_ORI)
          ((volume CHANNEL_ORI).volume_max))) := by
  refine ⟨?_, ?_, ?_⟩
  · intro hc
    have hcs : channel_selected channels volume = 0 := by
      unfold channel_selected
      rw [if_pos hc]
    refine ⟨hcs, ?_⟩
    unfold output_directives remap_directives
    rw [if_pos hc, hcs]
    rfl
  · intro hinv hll hch hrr
    subst hch
    have hcs : channel_selected 2 volume = 1 := by
      unfold channel_selected
      rw [if_neg (by simp [hinv, hll]), if_pos hrr]
    refine ⟨hcs, ?_⟩
    unfold output_directives remap_directives
    rw [if_neg (by simp [hinv, hll]), if_pos hrr, hcs]
    rfl
  · intro hinv hll hrr hch
    subst hch
    have hcs : channel_selected 2 volume = CHANNEL_ORI := by
      unfold channel_selected
      rw [if_neg (by simp [hinv, hll]), if_neg (by simp [hrr])]
    refine ⟨hcs, ?_⟩
    unfold output_directives remap_directives
    rw [if_neg (by simp [hinv, hll]), if_neg (by simp [hrr]), hcs]
    rfl

/-- Concrete stereo volume map with channel 0 mean -10 dB and channel 1
mean -25 dB (the claim's left-only scenario). -/
def volC7 : Int → VolumeInfo := fun c => if c = 1 then ⟨-25, -10⟩ else ⟨-10, 0⟩

/-- Concrete loudness map sitting inside the no-adjustment corridor. -/
def loudC7 : Int → ℚ := fun _ => -14

/-- C7 witness: for a stereo track with channel 0 mean -10 dB and channel
1 mean -25 dB, `is_ll` holds and the remap selects channel 0. -/
theorem c7_witness :
    channel_selected 2 volC7 = 0 ∧
    output_directives 3 2 volC7 loudC7 =
      Directive.map_channel 3 0 ::
        gain_directives (emittedGain (loudC7 0) ((volC7 0).volume_max)) :=
  (c7_remap_selection 3 2 volC7 loudC7).1 (by norm_num [is_ll, volC7])

/-- C10: when the selected variant's loudness is below -16 LUFS but the
computed boost min(-14 - loudness, -volume_max) is exactly 0 (for example
when volume_max = 0), no `-af` gain option is appended to the output
options at all: the gain filter is emitted only when the computed
adjustment value is nonzero. -/
theorem c10_zero_adjust_suppressed (index : Nat) (channels : Int)
    (volume : Int → VolumeInfo) (loudness : Int → ℚ)
    (hL : loudness (channel_selected channels volume) < LOUDNESS_MIN)
    (hz : min (LOUDNESS_TAR - loudness (channel_selected channels volume))
        (0 - (volume (channel_selected channels volume)).volume_max) = 0) :
    ∀ v : ℚ, Directive.af_volume v ∉
      output_directives index channels volume loudness := by
  intro v
  have hgain : emittedGain (loudness (channel_selected channels volume))
      ((volume (channel_selected channels volume)).volume_max) = none := by
    have hL2 : ¬ loudness (channel_selected channels volume) > LOUDNESS_MAX := by
      unfold LOUDNESS_MIN at hL
      unfold LOUDNESS_MAX
      linarith
    unfold emittedGain volume_adjust
    rw [if_neg hL2, if_pos hL]
    simp only [Option.bind]
    rw [if_pos hz]
  unfold output_directives
  rw [hgain]
  unfold remap_directives gain_directives
  split_ifs <;> simp

/-- Concrete volume map for the C10 witness: mean -25 dB, max 0 dB. -/
def volC10 : Int → VolumeInfo := fun _ => ⟨-25, 0⟩

/-- Concrete loudness map for the C10 witness: -20 LUFS everywhere. -/
def loudC10 : Int → ℚ := fun _ => -20

/-- C10 witness: mono track at loudness -20 LUFS with volume_max 0 dB:
the computed boost is min(6, 0) = 0 and no gain option appears. -/
theorem c10_witness :
    Directive.af_volume 0 ∉ output_directives 0 1 volC10 loudC10 :=
  c10_zero_adjust_suppressed 0 1 volC10 loudC10
    (by norm_num [loudC10, LOUDNESS_MIN])
    (by norm_num [volC10, loudC10, LOUDNESS_TAR]) 0

/-- One scan of Python `str.replace` over the character list: replaces
each non-overlapping occurrence of `pat` left to right. `fuel` only bounds
the recursion; any fuel at least the list length makes the scan exact. -/
def replaceAux (pat rep : List Char) : Nat → List Char → List Char
  | _, [] => []
  | 0, l => l
  | fuel + 1, c :: rest =>
    if !pat.isEmpty && pat.isPrefixOf (c :: rest) then
      rep ++ replaceAux pat rep fuel (rest.drop (pat.length - 1))
    else c :: replaceAux pat rep fuel rest

/-- Python `s.replace(pat, rep)` on strings (for nonempty `pat`). -/
def pyReplace (s pat rep : String) : String :=
  String.mk (replaceAux pat.data rep.data s.data.length s.data)

/-- The scheme normalization performed by `possible_protocols`:
`self._ori_proto.replace('rtspt', 'rtsp').replace('rtmpt', 'rtmp')`. -/
def normalize_proto (s : String) : String :=
  pyReplace (pyReplace s "rtspt" "rtsp") "rtmpt" "rtmp"

/-- The `possible_protocols` property of `AudioProber`, as a function of
the declared scheme and the `force_proto` flag. -/
def possible_protocols (ori_proto : String) (force_proto : Bool) : List String :=
  let proto := normalize_proto ori_proto
  if force_proto then [proto]
  else if proto = "file" then ["file"]
  else if proto = "rtmp" then ["rtmp"]
  else if proto = "http" then ["http", "mmsh"]
  else if proto = "mms" ∨ proto = "mmsh" ∨ proto = "mmst" ∨ proto = "rtsp" then
    ["rtsp", "mmsh"]
  else []

/-- C6: with the force flag the candidates are exactly the normalized
scheme; without it the rule table yields [file] for file, [rtmp] for rtmp
(and rtmpt), [http, mmsh] for http, [rtsp, mmsh] for each of mms, mmsh,
mmst, rtsp (and rtspt), and the empty list for any other scheme. -/
theorem c6_protocol_table :
    (∀ s, possible_protocols s true = [normalize_proto s]) ∧
    (∀ s, normalize_proto s ∉
        (["file", "rtmp", "http", "mms", "mmsh", "mmst", "rtsp"] : List String) →
      possible_protocols s false = []) ∧
    possible_protocols "file" false = ["file"] ∧
    possible_protocols "rtmp" false = ["rtmp"] ∧
    possible_protocols "rtmpt" false = ["rtmp"] ∧
    possible_protocols "http" false = ["http", "mmsh"] ∧
    possible_protocols "mms" false = ["rtsp", "mmsh"] ∧
    possible_protocols "mmsh" false = ["rtsp", "mmsh"] ∧
    possible_protocols "mmst" false = ["rtsp", "mmsh"] ∧
    possible_protocols "rtsp" false = ["rtsp", "mmsh"] ∧
    possible_protocols "rtspt" false = ["rtsp", "mmsh"] := by
  refine ⟨fun s => rfl, ?_, by decide, by decide, by decide, by decide,
    by decide, by decide, by decide, by decide, by decide⟩
  intro s hs
  simp only [List.mem_cons, List.not_mem_nil, or_false, not_or] at hs
  obtain ⟨h1, h2, h3, h4, h5, h6, h7⟩ := hs
  simp only [possible_protocols]
  rw [if_neg (by simp), if_neg h1, if_neg h2, if_neg h3,
    if_neg (by tauto)]

/-- C6 witness: an unsupported scheme (`ftp`) yields itself under force
and no candidates otherwise. -/
theorem c6_witness :
    possible_protocols "ftp" true = [normalize_proto "ftp"] ∧
    possible_protocols "ftp" false = [] :=
  ⟨c6_protocol_table.1 "ftp", c6_protocol_table.2.1 "ftp" (by decide)⟩

/-- One entry of the `streams` dict built by `_get_audio_tracks`: the
protocol, its averaged probing time `con_time`, and the parsed track map
(`none` when no repetition produced output). -/
structure ProtoInfo where
  proto : String
  con_time : ℚ
  tracks : Option (List Track)
deriving DecidableEq

/-- The `valid_tracks` list comprehension of `_get_audio_tracks`. -/
def valid_tracks (streams : List ProtoInfo) : List ProtoInfo :=
  streams.filter (fun i => i.tracks.isSome)

/-- The final selection of `_get_audio_tracks`:
`min(valid_tracks, key=lambda x: x['con_time'])` when `valid_tracks` is
nonempty, `None` (implicit fall-through) otherwise. -/
def select_stream (streams : List ProtoInfo) : Option ProtoInfo :=
  match valid_tracks streams with
  | [] => none
  | x :: xs => some (pyMinBy (fun i => i.con_time) x xs)

/-- Characterization of `pyMinBy`: either the seed is kept and is a minimum
of the scanned list, or the result is an element of the list, strictly
below the seed and everything before it, and at most everything after
it (Python `min` keeps the first minimum). -/
theorem pyMinBy_spec {α : Type} (f : α → ℚ) :
    ∀ (l : List α) (a m : α), pyMinBy f a l = m →
      (m = a ∧ ∀ x ∈ l, f m ≤ f x) ∨
      (∃ l1 l2, l = l1 ++ m :: l2 ∧ f m < f a ∧
        (∀ y ∈ l1, f m < f y) ∧ (∀ y ∈ l2, f m ≤ f y)) := by
  intro l
  induction l with
  | nil =>
    intro a m hm
    left
    refine ⟨hm.symm, ?_⟩
    intro x hx
    cases hx
  | cons b t ih =>
    intro a m hm
    have hstep : pyMinBy f a (b :: t) =
        pyMinBy f (if f b < f a then b else a) t := rfl
    by_cases hb : f b < f a
    · have hm2 : pyMinBy f b t = m := by
        rw [← hm, hstep, if_pos hb]
      rcases ih b m hm2 with ⟨hma, hall⟩ | ⟨l1, l2, ht, hlt, h1, h2⟩
      · right
        refine ⟨[], t, by simp [hma], ?_, by simp, hall⟩
        rw [hma]
        exact hb
      · right
        refine ⟨b :: l1, l2, by simp [ht], lt_trans hlt hb, ?_, h2⟩
        intro y hy
        rcases List.mem_cons.mp hy with rfl | hy2
        · exact hlt
        · exact h1 y hy2
    · have hm2 : pyMinBy f a t = m := by
        rw [← hm, hstep, if_neg hb]
      rcases ih a m hm2 with ⟨hma, hall⟩ | ⟨l1, l2, ht, hlt, h1, h2⟩
      · left
        refine ⟨hma, ?_⟩
        intro x hx
        rcases List.mem_cons.mp hx with rfl | hx2
        · rw [hma]
          exact le_of_not_lt hb
        · exact hall x hx2
      · right
        refine ⟨b :: l1, l2, by simp [ht], hlt, ?_, h2⟩
        intro y hy
        rcases List.mem_cons.mp hy with rfl | hy2
        · exact lt_of_lt_of_le hlt (le_of_not_lt hb)
        · exact h1 y hy2

/-- The result of `pyMinBy` is the seed or a member of the list. -/
theorem pyMinBy_mem {α : Type} (f : α → ℚ) :
    ∀ (l : List α) (a m : α), pyMinBy f a l = m → m = a ∨ m ∈ l := by
  intro l
  induction l with
  | nil =>
    intro a m hm
    left
    exact hm.symm
  | cons b t ih =>
    intro a m hm
    have hstep : pyMinBy f a (b :: t) =
        pyMinBy f (if f b < f a then b else a) t := rfl
    by_cases hb : f b < f a
    · have hm2 : pyMinBy f b t = m := by
        rw [← hm, hstep, if_pos hb]
      rcases ih b m hm2 with he | hmem
      · right
        rw [he]
        exact List.mem_cons_self b t
      · right
        exact List.mem_cons_of_mem b hmem
    · have hm2 : pyMinBy f a t = m := by
        rw [← hm, hstep, if_neg hb]
      rcases ih a m hm2 with he | hmem
      · left
        exact he
      · right
        exact List.mem_cons_of_mem b hmem

/-- The single aac track of the C3 scenario (128000 bps). -/
def scenarioTrack : Track :=
  { codec := "aac", profile := "LC", bit_rate := 128000, sample_rate := 44100,
    channels := 2, duration := 30, format_name := "aac", index := 0 }

/-- The http candidate of the C3 scenario: answers in 0.2 s. -/
def httpInfo : ProtoInfo := ⟨"http", 1/5, some [scenarioTrack]⟩

/-- The mmsh candidate of the C3 scenario: every repetition timed out, so
its average is the penalty 100 and its track map is absent. -/
def mmshInfo : ProtoInfo := ⟨"mmsh", 100, none⟩

/-- C3: among the candidates whose track map is present, the one with the
minimum average response time is selected, ties resolving to the first
candidate in enumeration order; in the concrete scenario the http
candidate (0.2 s, valid aac track) beats the mmsh candidate whose every
attempt failed (penalty 100, absent track map). -/
theorem c3_fastest_valid_candidate :
    (∀ streams : List ProtoInfo, valid_tracks streams ≠ [] →
      ∃ r, select_stream streams = some r ∧ r ∈ streams ∧
        r.tracks.isSome = true ∧
        (∀ s ∈ streams, s.tracks.isSome = true → r.con_time ≤ s.con_time) ∧
        ∃ l1 l2, valid_tracks streams = l1 ++ r :: l2 ∧
          ∀ s ∈ l1, r.con_time < s.con_time) ∧
    select_stream [httpInfo, mmshInfo] = some httpInfo := by
  constructor
  · intro streams hne
    rcases hv : valid_tracks streams with _ | ⟨x, xs⟩
    · exact absurd hv hne
    · obtain ⟨m, hm⟩ : ∃ m, pyMinBy (fun i : ProtoInfo => i.con_time) x xs = m :=
        ⟨_, rfl⟩
      have hsel : select_stream streams = some m := by
        unfold select_stream
        rw [hv]
        exact congrArg some hm
      have hmv : m ∈ valid_tracks streams := by
        rw [hv]
        rcases pyMinBy_mem (fun i => i.con_time) xs x m hm with he | hmem
        · rw [he]
          exact List.mem_cons_self x xs
        · exact List.mem_cons_of_mem x hmem
      have hms : m ∈ streams := (List.mem_filter.mp hmv).1
      have hsome : m.tracks.isSome = true := (List.mem_filter.mp hmv).2
      refine ⟨m, hsel, hms, hsome, ?_, ?_⟩
      · intro s hs hssome
        have hsv : s ∈ valid_tracks streams := List.mem_filter.mpr ⟨hs, hssome⟩
        rw [hv] at hsv
        rcases pyMinBy_spec (fun i => i.con_time) xs x m hm with
          ⟨hma, hall⟩ | ⟨l1, l2, ht, hlt, h1, h2⟩
        · rcases List.mem_cons.mp hsv with rfl | hs2
          · rw [hma]
          · exact hall s hs2
        · rcases List.mem_cons.mp hsv with rfl | hs2
          · exact le_of_lt hlt
          · rw [ht] at hs2
            rcases List.mem_append.mp hs2 with hs3 | hs4
            · exact le_of_lt (h1 s hs3)
            · rcases List.mem_cons.mp hs4 with rfl | hs5
              · exact le_refl _
              · exact h2 s hs5
      · rcases pyMinBy_spec (fun i => i.con_time) xs x m hm with
          ⟨hma, hall⟩ | ⟨l1, l2, ht, hlt, h1, h2⟩
        · refine ⟨[], xs, by simp [hma], by simp⟩
        · refine ⟨x :: l1, l2, by simp [ht], ?_⟩
          intro s hs
          rcases List.mem_cons.mp hs with rfl | hs2
          · exact hlt
          · exact h1 s hs2
  · rfl

/-- C3 witness: the general selection statement applied to the two
scenario candidates. -/
theorem c3_witness :
    ∃ r, select_stream [httpInfo, mmshInfo] = some r ∧
      r ∈ [httpInfo, mmshInfo] ∧ r.tracks.isSome = true ∧
      (∀ s ∈ [httpInfo, mmshInfo], s.tracks.isSome = true →
        r.con_time ≤ s.con_time) ∧
      ∃ l1 l2, valid_tracks [httpInfo, mmshInfo] = l1 ++ r :: l2 ∧
        ∀ s ∈ l1, r.con_time < s.con_time :=
  c3_fastest_valid_candidate.1 [httpInfo, mmshInfo] (by decide)

/-- The `InvalidURL` exception raised by `best_track`. -/
inductive ProbeError
  | invalidURL
deriving DecidableEq

/-- The `best_track` property of `AudioProber` at the level of one
completed probing pass: raise `InvalidURL` when `_get_audio_tracks`
returns `None`, otherwise run `_get_best_track` on the selected track
map's values. -/
def session_best_track (streams : List ProtoInfo) :
    Except ProbeError (Option Track) :=
  match select_stream streams with
  | none => Except.error ProbeError.invalidURL
  | some r => Except.ok (get_best_track (r.tracks.getD []))

/-- Timing recorded for one repetition of the probing loop of
`_get_audio_tracks`: the elapsed time on success, `TIME_PUNISHMENT` when
every retry of the repetition raised. -/
def repetition_time : Option (ℚ × List Track) → ℚ
  | none => TIME_PUNISHMENT
  | some (t, _) => t

/-- The `probing_time` list accumulated by `_get_audio_tracks` for one
protocol (one entry per repetition). -/
def probing_times (attempts : List (Option (ℚ × List Track))) : List ℚ :=
  attempts.map repetition_time

/-- The `json_data` variable after the repetition loop: the parsed output of the last
successful repetition, if any. -/
def last_output (attempts : List (Option (ℚ × List Track))) :
    Option (List Track) :=
  attempts.foldl (fun acc a => match a with
    | none => acc
    | some (_, d) => some d) none

/-- The `streams[proto]` record built by `_get_audio_tracks` for one
protocol from its repetition outcomes (average of the timings, last
successful output as track map). -/
def proto_result (proto : String)
    (attempts : List (Option (ℚ × List Track))) : ProtoInfo :=
  ⟨proto, (probing_times attempts).sum / (probing_times attempts).length,
    last_output attempts⟩

/-- All-failed repetition lists give the all-penalty timing list. -/
theorem probing_times_all_failed
    (attempts : List (Option (ℚ × List Track)))
    (h : ∀ a ∈ attempts, a = none) :
    probing_times attempts = List.replicate attempts.length TIME_PUNISHMENT := by
  induction attempts with
  | nil => rfl
  | cons a t ih =>
    have ha : a = none := h a (List.mem_cons_self a t)
    subst ha
    simp only [probing_times, List.map, List.length_cons, List.replicate,
      repetition_time]
    exact congrArg _ (ih fun x hx => h x (List.mem_cons_of_mem none hx))

/-- All-failed repetition lists leave `json_data` unset. -/
theorem last_output_all_failed
    (attempts : List (Option (ℚ × List Track)))
    (h : ∀ a ∈ attempts, a = none) :
    last_output attempts = none := by
  have hgen : ∀ (l : List (Option (ℚ × List Track))), (∀ a ∈ l, a = none) →
      ∀ acc, l.foldl (fun acc a => match a with
        | none => acc
        | some (_, d) => some d) acc = acc := by
    intro l
    induction l with
    | nil => intro _ acc; rfl
    | cons a t ih =>
      intro hl acc
      have ha : a = none := hl a (List.mem_cons_self a t)
      subst ha
      exact ih (fun x hx => hl x (List.mem_cons_of_mem none hx)) acc
  exact hgen attempts h none

/-- C8: a session with no candidate exposing a present track map fails
with `InvalidURL`; a session with at least one such candidate returns a
result rather than an error; and a candidate all of whose repetitions
failed is recorded with average time `TIME_PUNISHMENT` (100) and an
absent track map, instead of failing the session by itself. -/
theorem c8_error_handling :
    (∀ streams : List ProtoInfo, (∀ s ∈ streams, s.tracks = none) →
      session_best_track streams = Except.error ProbeError.invalidURL) ∧
    (∀ streams : List ProtoInfo, (∃ s ∈ streams, s.tracks.isSome = true) →
      ∃ v, session_best_track streams = Except.ok v) ∧
    (∀ (proto : String) (attempts : List (Option (ℚ × List Track))),
      attempts ≠ [] → (∀ a ∈ attempts, a = none) →
      proto_result proto attempts = ⟨proto, TIME_PUNISHMENT, none⟩) := by
  refine ⟨?_, ?_, ?_⟩
  · intro streams hall
    have hv : valid_tracks streams = [] := by
      unfold valid_tracks
      rw [List.filter_eq_nil_iff]
      intro s hs
      rw [hall s hs]
      simp
    unfold session_best_track select_stream
    rw [hv]
  · intro streams hex
    rcases hex with ⟨s, hs, hsome⟩
    have hsv : s ∈ valid_tracks streams := List.mem_filter.mpr ⟨hs, hsome⟩
    rcases hv : valid_tracks streams with _ | ⟨x, xs⟩
    · rw [hv] at hsv
      cases hsv
    · refine ⟨get_best_track (((pyMinBy (fun i => i.con_time) x xs).tracks).getD []), ?_⟩
      unfold session_best_track select_stream
      rw [hv]
  · intro proto attempts hne hall
    have hn : (attempts.length : ℚ) ≠ 0 := by
      simp only [ne_eq, Nat.cast_eq_zero, List.length_eq_zero]
      exact hne
    unfold proto_result
    rw [probing_times_all_failed attempts hall, last_output_all_failed attempts hall]
    have hsum : (List.replicate attempts.length TIME_PUNISHMENT).sum
        = (attempts.length : ℚ) * TIME_PUNISHMENT := by
      rw [List.sum_replicate, nsmul_eq_mul]
    rw [hsum, List.length_replicate]
    rw [mul_comm, mul_div_assoc, div_self hn, mul_one]

/-- C8 witness: a lone failed candidate (absent track map) makes the
session raise `InvalidURL`, and three failed repetitions average to the
penalty 100 with an absent track map. -/
theorem c8_witness :
    session_best_track [ProtoInfo.mk "mmsh" 100 none] =
      Except.error ProbeError.invalidURL ∧
    proto_result "mmsh" [none, none, none] =
      ⟨"mmsh", TIME_PUNISHMENT, none⟩ :=
  ⟨c8_error_handling.1 [ProtoInfo.mk "mmsh" 100 none] (by simp),
   c8_error_handling.2.2 "mmsh" [none, none, none] (by simp) (by simp)⟩

/-- The two measurement stages run by each analysis branch of
`_get_volume_and_loudness`. -/
inductive Stage
  | volumedetect
  | ebur128
deriving DecidableEq

/-- One analysis branch contributes a volumedetect module at index `base`
and an ebur128 module at index `base + 1`, both measuring channel `ch`. -/
def branch_modules (base : Nat) (ch : Int) : List (Nat × Int × Stage) :=
  [(base, (ch, Stage.volumedetect)), (base + 1, (ch, Stage.ebur128))]

/-- The `module_data` mapping built by `_get_volume_and_loudness` for a
track with `channels` channels: modules 0 and 1 for the original branch,
modules `1 + 3*i + 2` and `1 + 3*i + 3` for channel `i`'s branch (each
such branch also holds an unrecorded pan module), and, for stereo tracks
only, modules `1 + 3*channels + 2` and `1 + 3*channels + 3` for the
merged branch. -/
def module_data (channels : Nat) : List (Nat × Int × Stage) :=
  branch_modules 0 CHANNEL_ORI
    ++ (List.range channels).flatMap
        (fun i => branch_modules (1 + 3 * i + 2) (i : Int))
    ++ (if channels = 2 then
        branch_modules (1 + 3 * channels + 2) CHANNEL_MERGED else [])

/-- Channel keys of the `volume` dict assembled from `module_data` at the
end of `_get_volume_and_loudness` (one entry per volumedetect module). -/
def volume_keys (channels : Nat) : List Int :=
  (module_data channels).filterMap
    (fun e => if e.2.2 = Stage.volumedetect then some e.2.1 else none)

/-- Channel keys of the `loudness` dict (one per ebur128 module). -/
def loudness_keys (channels : Nat) : List Int :=
  (module_data channels).filterMap
    (fun e => if e.2.2 = Stage.ebur128 then some e.2.1 else none)

/-- The module indices of `module_data`, in construction order. -/
theorem module_data_keys (channels : Nat) :
    (module_data channels).map Prod.fst =
      [0, 1] ++ (List.range channels).flatMap
          (fun i => [1 + 3 * i + 2, 1 + 3 * i + 2 + 1])
        ++ (if channels = 2 then
            [1 + 3 * channels + 2, 1 + 3 * channels + 2 + 1] else []) := by
  unfold module_data branch_modules
  by_cases h2 : channels = 2 <;>
    simp [h2, List.map_flatMap]

/-- The `(channel, stage)` pairs of `module_data`, in construction order. -/
theorem module_data_pairs (channels : Nat) :
    (module_data channels).map Prod.snd =
      [(CHANNEL_ORI, Stage.volumedetect), (CHANNEL_ORI, Stage.ebur128)]
        ++ (List.range channels).flatMap
          (fun i => [((i : Int), Stage.volumedetect), ((i : Int), Stage.ebur128)])
        ++ (if channels = 2 then
            [(CHANNEL_MERGED, Stage.volumedetect),
             (CHANNEL_MERGED, Stage.ebur128)] else []) := by
  unfold module_data branch_modules
  by_cases h2 : channels = 2 <;>
    simp [h2, List.map_flatMap]

/-- Explicit form of the volume key list: the original channel, one key
per channel index, and the merged channel exactly for stereo tracks. -/
theorem volume_keys_eq (channels : Nat) :
    volume_keys channels =
      [CHANNEL_ORI] ++ (List.range channels).map (fun i : Nat => (i : Int))
        ++ (if channels = 2 then [CHANNEL_MERGED] else []) := by
  unfold volume_keys module_data branch_modules
  by_cases h2 : channels = 2 <;>
    simp [h2, List.filterMap_append, List.filterMap_flatMap, List.filterMap_cons,
      List.map_eq_flatMap]

/-- Explicit form of the loudness key list: identical to the volume keys. -/
theorem loudness_keys_eq (channels : Nat) :
    loudness_keys channels =
      [CHANNEL_ORI] ++ (List.range channels).map (fun i : Nat => (i : Int))
        ++ (if channels = 2 then [CHANNEL_MERGED] else []) := by
  unfold loudness_keys module_data branch_modules
  by_cases h2 : channels = 2 <;>
    simp [h2, List.filterMap_append, List.filterMap_flatMap, List.filterMap_cons,
      List.map_eq_flatMap]

/-- Every element of a two-stage branch pair list has the branch's
channel as first component. -/
theorem fst_of_mem_pair {p : Int × Stage} {c : Int}
    (h : p ∈ [(c, Stage.volumedetect), (c, Stage.ebur128)]) : p.1 = c := by
  rcases List.mem_cons.mp h with rfl | h2
  · rfl
  · rcases List.mem_cons.mp h2 with rfl | h3
    · rfl
    · cases h3

/-- The coercion image of `List.range` is the integer interval. -/
theorem mem_range_coe (channels : Nat) (k : Int) :
    k ∈ (List.range channels).map (fun i : Nat => (i : Int)) ↔
      (0 ≤ k ∧ k < (channels : Int)) := by
  rw [List.mem_map]
  constructor
  · rintro ⟨i, hi, rfl⟩
    rw [List.mem_range] at hi
    omega
  · rintro ⟨h0, hk⟩
    exact ⟨k.toNat, List.mem_range.mpr (by omega), by omega⟩

/-- C5: for every channel count of at least 1, the module-index mapping of
`_get_volume_and_loudness` is injective in both directions — no module
slot carries two `(channel, stage)` pairs and no pair occupies two slots —
and the volume and loudness maps parsed back through the same mapping have
as key set exactly the channel variants implied by the channel count: the
original signal, each of the `channels` per-channel variants, and the
merged variant exactly when `channels = 2`. -/
theorem c5_module_index_roundtrip (channels : Nat) (hch : 1 ≤ channels) :
    ((module_data channels).map Prod.fst).Nodup ∧
    ((module_data channels).map Prod.snd).Nodup ∧
    (∀ k : Int, k ∈ volume_keys channels ↔
      (k = CHANNEL_ORI ∨ (0 ≤ k ∧ k < (channels : Int)) ∨
        (channels = 2 ∧ k = CHANNEL_MERGED))) ∧
    (∀ k : Int, k ∈ loudness_keys channels ↔
      (k = CHANNEL_ORI ∨ (0 ≤ k ∧ k < (channels : Int)) ∨
        (channels = 2 ∧ k = CHANNEL_MERGED))) := by
  have hmem : ∀ k : Int,
      (k ∈ [CHANNEL_ORI] ++ (List.range channels).map (fun i : Nat => (i : Int))
        ++ (if channels = 2 then [CHANNEL_MERGED] else [])) ↔
      (k = CHANNEL_ORI ∨ (0 ≤ k ∧ k < (channels : Int)) ∨
        (channels = 2 ∧ k = CHANNEL_MERGED)) := by
    intro k
    rw [List.mem_append, List.mem_append, mem_range_coe]
    by_cases h2 : channels = 2
    · rw [if_pos h2]
      constructor
      · rintro ((hk | hk) | hk)
        · exact Or.inl (List.mem_singleton.mp hk)
        · exact Or.inr (Or.inl hk)
        · exact Or.inr (Or.inr ⟨h2, List.mem_singleton.mp hk⟩)
      · rintro (hk | hk | ⟨-, hk⟩)
        · exact Or.inl (Or.inl (List.mem_singleton.mpr hk))
        · exact Or.inl (Or.inr hk)
        · exact Or.inr (List.mem_singleton.mpr hk)
    · rw [if_neg h2]
      constructor
      · rintro ((hk | hk) | hk)
        · exact Or.inl (List.mem_singleton.mp hk)
        · exact Or.inr (Or.inl hk)
        · exact absurd hk (List.not_mem_nil k)
      · rintro (hk | hk | ⟨hc, -⟩)
        · exact Or.inl (Or.inl (List.mem_singleton.mpr hk))
        · exact Or.inl (Or.inr hk)
        · exact absurd hc h2
  refine ⟨?_, ?_, ?_, ?_⟩
  · rw [module_data_keys]
    refine List.Nodup.append (List.Nodup.append (by decide) ?_ ?_) ?_ ?_
    · rw [List.nodup_flatMap]
      refine ⟨fun i _ => by simp, ?_⟩
      refine (List.pairwise_lt_range channels).imp ?_
      intro i j hij
      intro a ha hb
      simp only [List.mem_cons, List.not_mem_nil, or_false] at ha hb
      omega
    · intro a ha hb
      simp only [List.mem_cons, List.not_mem_nil, or_false] at ha
      simp only [List.mem_flatMap, List.mem_range, List.mem_cons,
        List.not_mem_nil, or_false] at hb
      obtain ⟨i, hi, hb⟩ := hb
      omega
    · by_cases h2 : channels = 2 <;> simp [h2]
    · intro a ha hb
      by_cases h2 : channels = 2
      · simp only [h2, reduceIte, List.mem_cons, List.not_mem_nil,
          or_false] at hb
        simp only [List.mem_append, List.mem_cons, List.not_mem_nil,
          or_false, List.mem_flatMap, List.mem_range] at ha
        rcases ha with ha | ⟨i, hi, ha⟩ <;> omega
      · simp [h2] at hb
  · rw [module_data_pairs]
    have e1 : (CHANNEL_ORI : Int) = -1 := rfl
    have e2 : (CHANNEL_MERGED : Int) = -2 := rfl
    refine List.Nodup.append (List.Nodup.append (by simp) ?_ ?_) ?_ ?_
    · rw [List.nodup_flatMap]
      refine ⟨fun i _ => by simp, ?_⟩
      refine (List.pairwise_lt_range channels).imp ?_
      intro i j hij a ha hb
      have hi := fst_of_mem_pair ha
      have hj := fst_of_mem_pair hb
      omega
    · intro a ha hb
      rw [List.mem_flatMap] at hb
      obtain ⟨i, hi, hb⟩ := hb
      have h1 := fst_of_mem_pair ha
      have h2 := fst_of_mem_pair hb
      rw [e1] at h1
      omega
    · by_cases h2 : channels = 2 <;> simp [h2]
    · intro a ha hb
      by_cases hc2 : channels = 2
      · rw [if_pos hc2] at hb
        have h2 := fst_of_mem_pair hb
        rw [e2] at h2
        rw [List.mem_append] at ha
        rcases ha with ha | ha
        · have h1 := fst_of_mem_pair ha
          rw [e1] at h1
          omega
        · rw [List.mem_flatMap] at ha
          obtain ⟨i, hi, ha⟩ := ha
          have h1 := fst_of_mem_pair ha
          omega
      · rw [if_neg hc2] at hb
        cases hb
  · intro k
    rw [volume_keys_eq]
    exact hmem k
  · intro k
    rw [loudness_keys_eq]
    exact hmem k

/-- C5 witness: at channel count 2 the module slots are pairwise
distinct. -/
theorem c5_witness : ((module_data 2).map Prod.fst).Nodup :=
  (c5_module_index_roundtrip 2 (by norm_num)).1

/-- The result of `pyMaxBy` is the seed or a member of the list. -/
theorem pyMaxBy_mem {α : Type} (f : α → ℚ) :
    ∀ (l : List α) (a m : α), pyMaxBy f a l = m → m = a ∨ m ∈ l := by
  intro l
  induction l with
  | nil =>
    intro a m hm
    left
    exact hm.symm
  | cons b t ih =>
    intro a m hm
    have hstep : pyMaxBy f a (b :: t) =
        pyMaxBy f (if f b > f a then b else a) t := rfl
    by_cases hb : f b > f a
    · have hm2 : pyMaxBy f b t = m := by
        rw [← hm, hstep, if_pos hb]
      rcases ih b m hm2 with rfl | hmem
      · right
        exact List.mem_cons_self _ t
      · right
        exact List.mem_cons_of_mem b hmem
    · have hm2 : pyMaxBy f a t = m := by
        rw [← hm, hstep, if_neg hb]
      rcases ih a m hm2 with he | hmem
      · left
        exact he
      · right
        exact List.mem_cons_of_mem b hmem

/-- The function `get_best_track` only returns members of the track list. -/
theorem get_best_track_mem (tracks : List Track) (t : Track)
    (h : get_best_track tracks = some t) : t ∈ tracks := by
  cases tracks with
  | nil => cases h
  | cons a ts =>
    have he : get_best_track (a :: ts) =
        some (pyMaxBy (value (maxDuration (a :: ts))) a ts) := rfl
    rw [he] at h
    injection h with h
    rcases pyMaxBy_mem _ ts a t h with rfl | hmem
    · exact List.mem_cons_self _ ts
    · exact List.mem_cons_of_mem a hmem

/-- Looking up a member's own index in the track map returns that member
when the map's indices are unique (the Python dict keyed by index). -/
theorem find_index_of_nodup :
    ∀ (l : List Track) (t : Track), t ∈ l → (l.map Track.index).Nodup →
      l.find? (fun x => x.index == t.index) = some t := by
  intro l
  induction l with
  | nil =>
    intro t ht
    cases ht
  | cons a ts ih =>
    intro t ht hnd
    rw [List.map_cons, List.nodup_cons] at hnd
    rcases hpa : (a.index == t.index) with _ | _
    · have ht2 : t ∈ ts := by
        rcases List.mem_cons.mp ht with rfl | ht2
        · simp at hpa
        · exact ht2
      simp only [List.find?_cons, hpa]
      exact ih t ht2 hnd.2
    · rcases List.mem_cons.mp ht with rfl | ht2
      · simp only [List.find?_cons, hpa]
      · exfalso
        apply hnd.1
        have heq : a.index = t.index := by simpa using hpa
        rw [heq]
        exact List.mem_map_of_mem Track.index ht2

/-- A successful protocol selection comes from the valid candidates and
carries a present track map. -/
theorem select_stream_mem (streams : List ProtoInfo) (r : ProtoInfo)
    (h : select_stream streams = some r) :
    r ∈ streams ∧ ∃ l, r.tracks = some l := by
  unfold select_stream at h
  rcases hv : valid_tracks streams with _ | ⟨x, xs⟩ <;> rw [hv] at h
  · cases h
  · injection h with h
    have hrv : r ∈ valid_tracks streams := by
      rw [hv]
      rcases pyMinBy_mem (fun i => i.con_time) xs x r h with rfl | hmem
      · exact List.mem_cons_self _ xs
      · exact List.mem_cons_of_mem x hmem
    exact ⟨(List.mem_filter.mp hrv).1,
      Option.isSome_iff_exists.mp (List.mem_filter.mp hrv).2⟩

/-- The mutable probing fields of `AudioProber` relevant to caching:
`_proto`, `_con_time`, `_tracks` (its dict as the value list in insertion
order) and `_best_track_index`. -/
structure ProberState where
  proto : Option String
  con_time : Option ℚ
  tracks : Option (List Track)
  best_track_index : Option Nat
deriving DecidableEq

/-- The state of a freshly constructed prober. -/
def initState : ProberState := ⟨none, none, none, none⟩

/-- Core of `_get_audio_tracks` once the probing outcome is fixed:
`None` leaves the state untouched, a selected candidate caches `_proto`,
`_con_time` and `_tracks` and returns the track map. -/
def get_audio_tracks_core (st : ProberState) :
    Option ProtoInfo → Option (List Track) × ProberState
  | none => (none, st)
  | some r =>
    (r.tracks, ⟨some r.proto, some r.con_time, r.tracks, st.best_track_index⟩)

/-- One run of `_get_audio_tracks` against the fixed probing outcomes
`streams` (the racing itself is deterministic given those outcomes). -/
def get_audio_tracks_run (streams : List ProtoInfo) (st : ProberState) :
    Option (List Track) × ProberState :=
  get_audio_tracks_core st (select_stream streams)

/-- Branching core of the `tracks` property on the cached `_tracks`. -/
def tracks_core (streams : List ProtoInfo) (st : ProberState) :
    Option (List Track) → Option (List Track) × ProberState × Nat
  | some l =>
    if l.isEmpty then
      ((get_audio_tracks_run streams st).1,
        (get_audio_tracks_run streams st).2, 1)
    else (some l, st, 0)
  | none =>
    ((get_audio_tracks_run streams st).1,
      (get_audio_tracks_run streams st).2, 1)

/-- The `tracks` property: the cached `_tracks` when truthy (present and
nonempty), else a fresh `_get_audio_tracks` run. The last component
counts the probing runs performed by the call. -/
def tracks_prop (streams : List ProtoInfo) (st : ProberState) :
    Option (List Track) × ProberState × Nat :=
  tracks_core streams st st.tracks

/-- Branching core of `_get_best_track` on the `tracks` property's
result: `None` on a falsy track map, otherwise the best track, whose
index is cached. -/
def get_best_track_core :
    Option (List Track) × ProberState × Nat → Option Track × ProberState × Nat
  | (none, st1, n) => (none, st1, n)
  | (some l, st1, n) =>
    if l.isEmpty then (none, st1, n)
    else
      match get_best_track l with
      | none => (none, st1, n)
      | some b =>
        (some b, ⟨st1.proto, st1.con_time, st1.tracks, some b.index⟩, n)

/-- One `_get_best_track` call. -/
def get_best_track_run (streams : List ProtoInfo) (st : ProberState) :
    Option Track × ProberState × Nat :=
  get_best_track_core (tracks_prop streams st)

/-- Branching core of the slow path of the `best_track` property on the
result of its fresh `_get_audio_tracks` run: raise `InvalidURL` when the
run returned `None`, else return `_get_best_track`. -/
def best_track_slow_core (streams : List ProtoInfo) :
    Option (List Track) × ProberState →
      Except ProbeError (Option Track) × ProberState × Nat
  | (none, st1) => (Except.error ProbeError.invalidURL, st1, 1)
  | (some _, st1) =>
    (Except.ok (get_best_track_run streams st1).1,
      (get_best_track_run streams st1).2.1,
      1 + (get_best_track_run streams st1).2.2)

/-- The slow path of the `best_track` property. -/
def best_track_slow (streams : List ProtoInfo) (st : ProberState) :
    Except ProbeError (Option Track) × ProberState × Nat :=
  best_track_slow_core streams (get_audio_tracks_run streams st)

/-- The cache hit branch of the `best_track` property on the result of
the dict lookup `self._tracks[self._best_track_index]`. -/
def best_track_hit (streams : List ProtoInfo) (st : ProberState) :
    Option Track → Except ProbeError (Option Track) × ProberState × Nat
  | some t => (Except.ok (some t), st, 0)
  | none => best_track_slow streams st

/-- Branching core of the `best_track` property on the cached `_tracks`
and `_best_track_index`. -/
def best_track_core (streams : List ProtoInfo) (st : ProberState) :
    Option (List Track) → Option Nat →
      Except ProbeError (Option Track) × ProberState × Nat
  | some l, some i => best_track_hit streams st (l.find? (fun x => x.index == i))
  | some _, none => best_track_slow streams st
  | none, _ => best_track_slow streams st

/-- The `best_track` property: the cached track when `_tracks` and
`_best_track_index` are both set and the index is a key of the track map,
otherwise the slow path. -/
def best_track_prop (streams : List ProtoInfo) (st : ProberState) :
    Except ProbeError (Option Track) × ProberState × Nat :=
  best_track_core streams st st.tracks st.best_track_index

/-- Python truthiness of the optional `_proto` string. -/
def pyStrTruthy : Option String → Bool
  | none => false
  | some s => !s.isEmpty

/-- Branching core of the non-file `best_url` on the truthiness of the
cached `_proto`: read it directly, or run `_get_best_track` first. -/
def best_url_core (url_without_proto : String) (streams : List ProtoInfo)
    (st : ProberState) : Bool → String × ProberState × Nat
  | true => (st.proto.getD "" ++ "://" ++ url_without_proto, st, 0)
  | false =>
    ((get_best_track_run streams st).2.1.proto.getD ""
        ++ "://" ++ url_without_proto,
      (get_best_track_run streams st).2.1, (get_best_track_run streams st).2.2)

/-- The `best_url` property: the raw url for local files; otherwise the
cached protocol prefixed to the url remainder, running `_get_best_track`
first when `_proto` is still falsy. -/
def best_url_prop (ori_proto url url_without_proto : String)
    (streams : List ProtoInfo) (st : ProberState) :
    String × ProberState × Nat :=
  if ori_proto = "file" then (url, st, 0)
  else best_url_core url_without_proto streams st (pyStrTruthy st.proto)

/-- C9: when the first `best_track` query from the fresh state succeeds
with track `t` and final state `st`, the selection is fully cached in
`st`: a repeated `best_track` query returns the same track `t` with no
probing run and no state change, a `tracks` query returns the cached
track map with no probing run, and `best_url` queries read the cached
protocol (or, for local files, the raw url) with no probing run — so
repeated queries are idempotent and probing happens at most once. -/
theorem c9_selection_cached (streams : List ProtoInfo) (t : Track)
    (st : ProberState) (n : Nat)
    (hwf : ∀ s ∈ streams, ∀ l, s.tracks = some l → (l.map Track.index).Nodup)
    (hproto : ∀ s ∈ streams, s.proto.isEmpty = false)
    (h : best_track_prop streams initState = (Except.ok (some t), st, n)) :
    best_track_prop streams st = (Except.ok (some t), st, 0) ∧
    tracks_prop streams st = (st.tracks, st, 0) ∧
    (∀ ori url rest, ori ≠ "file" →
      best_url_prop ori url rest streams st =
        (st.proto.getD "" ++ "://" ++ rest, st, 0)) ∧
    (∀ url rest, best_url_prop "file" url rest streams st = (url, st, 0)) := by
  have h0 : best_track_prop streams initState =
      best_track_slow streams initState := rfl
  rw [h0] at h
  have hkey : ∃ (r : ProtoInfo) (l : List Track),
      select_stream streams = some r ∧ r ∈ streams ∧ r.tracks = some l ∧
      l.isEmpty = false ∧ get_best_track l = some t ∧
      st = ⟨some r.proto, some r.con_time, some l, some t.index⟩ := by
    rcases hsel : select_stream streams with _ | r
    · have hgat : get_audio_tracks_run streams initState = (none, initState) := by
        unfold get_audio_tracks_run
        rw [hsel]
        rfl
      unfold best_track_slow at h
      rw [hgat] at h
      simp [best_track_slow_core] at h
    · obtain ⟨hrmem, l, hrl⟩ := select_stream_mem streams r hsel
      have hgat : get_audio_tracks_run streams initState =
          (some l, ⟨some r.proto, some r.con_time, some l, none⟩) := by
        unfold get_audio_tracks_run
        rw [hsel]
        simp only [get_audio_tracks_core, hrl]
        rfl
      unfold best_track_slow at h
      rw [hgat] at h
      simp only [best_track_slow_core] at h
      have hst1tr : (⟨some r.proto, some r.con_time, some l, none⟩ :
          ProberState).tracks = some l := rfl
      rcases hle : l.isEmpty with _ | _
      · have htr : tracks_prop streams
            ⟨some r.proto, some r.con_time, some l, none⟩ =
            (some l, ⟨some r.proto, some r.con_time, some l, none⟩, 0) := by
          unfold tracks_prop
          rw [hst1tr]
          simp only [tracks_core, hle, Bool.false_eq_true, if_false]
        cases l with
        | nil => cases hle
        | cons a ts =>
          have hgbt : get_best_track (a :: ts) =
              some (pyMaxBy (value (maxDuration (a :: ts))) a ts) := rfl
          have hrun : get_best_track_run streams
              ⟨some r.proto, some r.con_time, some (a :: ts), none⟩ =
              (some (pyMaxBy (value (maxDuration (a :: ts))) a ts),
                ⟨some r.proto, some r.con_time, some (a :: ts),
                  some (pyMaxBy (value (maxDuration (a :: ts))) a ts).index⟩,
                0) := by
            unfold get_best_track_run
            rw [htr]
            simp only [get_best_track_core, hle, Bool.false_eq_true, if_false,
              hgbt]
          rw [hrun] at h
          simp only [Prod.mk.injEq, Except.ok.injEq, Option.some.injEq] at h
          refine ⟨r, a :: ts, rfl, hrmem, hrl, hle, ?_, ?_⟩
          · rw [hgbt, h.1]
          · rw [← h.2.1, h.1]
      · have htr : tracks_prop streams
            ⟨some r.proto, some r.con_time, some l, none⟩ =
            (some l, ⟨some r.proto, some r.con_time, some l, none⟩, 1) := by
          unfold tracks_prop
          rw [hst1tr]
          simp only [tracks_core, hle, if_true]
          have : get_audio_tracks_run streams
              ⟨some r.proto, some r.con_time, some l, none⟩ =
              (some l, ⟨some r.proto, some r.con_time, some l, none⟩) := by
            unfold get_audio_tracks_run
            rw [hsel]
            simp only [get_audio_tracks_core, hrl]
          rw [this]
        have hrun : get_best_track_run streams
            ⟨some r.proto, some r.con_time, some l, none⟩ =
            (none, ⟨some r.proto, some r.con_time, some l, none⟩, 1) := by
          unfold get_best_track_run
          rw [htr]
          simp only [get_best_track_core, hle, if_true]
        rw [hrun] at h
        simp at h
  obtain ⟨r, l, hsel, hrmem, hrl, hle, hbt, hst⟩ := hkey
  have hfind : l.find? (fun x => x.index == t.index) = some t :=
    find_index_of_nodup l t (get_best_track_mem l t hbt) (hwf r hrmem l hrl)
  subst hst
  have hcachetr : (⟨some r.proto, some r.con_time, some l, some t.index⟩ :
      ProberState).tracks = some l := rfl
  have hcacheidx : (⟨some r.proto, some r.con_time, some l, some t.index⟩ :
      ProberState).best_track_index = some t.index := rfl
  refine ⟨?_, ?_, ?_, ?_⟩
  · unfold best_track_prop
    rw [hcachetr, hcacheidx]
    simp only [best_track_core]
    rw [hfind]
    rfl
  · unfold tracks_prop
    rw [hcachetr]
    simp only [tracks_core, hle, Bool.false_eq_true, if_false]
  · intro ori url rest hori
    unfold best_url_prop
    rw [if_neg hori]
    have hp : pyStrTruthy (⟨some r.proto, some r.con_time, some l,
        some t.index⟩ : ProberState).proto = true := by
      show (!r.proto.isEmpty) = true
      rw [hproto r hrmem]
      rfl
    rw [hp]
    simp only [best_url_core]
  · intro url rest
    unfold best_url_prop
    rw [if_pos rfl]

/-- The single track of the C9 witness environment. -/
def wTrack : Track :=
  { codec := "aac", profile := "", bit_rate := 96000, sample_rate := 44100,
    channels := 2, duration := 60, format_name := "aac", index := 0 }

/-- The C9 witness environment: one http candidate with one track. -/
def wStreams : List ProtoInfo := [⟨"http", 1, some [wTrack]⟩]

/-- The prober state after the first successful best-track query of the
C9 witness environment. -/
def wState : ProberState := ⟨some "http", some 1, some [wTrack], some 0⟩

/-- C9 witness: in the concrete one-candidate environment, the query
after the first successful one returns the cached track with no probing
run. -/
theorem c9_witness :
    best_track_prop wStreams wState = (Except.ok (some wTrack), wState, 0) :=
  (c9_selection_cached wStreams wTrack wState 1
    (by
      intro s hs l hl
      simp only [wStreams, List.mem_singleton] at hs
      subst hs
      simp only [Option.some.injEq] at hl
      subst hl
      simp [wTrack])
    (by
      intro s hs
      simp only [wStreams, List.mem_singleton] at hs
      subst hs
      rfl)
    rfl).1

end AuProbe
